import Mathlib

/-!
Shallow embedding of the data-fetch / state-synchronization core of a mobile
storefront app: the remote data gateway (src/services/api.js), the catalog
aggregator component (src/components/CategoryProductList.js), and the Redux
state slices (src/store/authSlice.js, src/store/productSlice.js).

Effectful pieces are modelled by passing the outcome of the network call (or a
fetch oracle `String → Except String (List Product)`) explicitly; the React
`useState` setters become a record update on an explicit component state.
-/

/-- A product as delivered by the remote API (`dummyjson.com`): the six JSON
fields the app consumes (`id, title, description, price, discountPercentage,
thumbnail, images`).  Numeric JSON fields are modelled as rationals; they are
carried opaquely, never computed on, by the code embedded here. -/
structure Product where
  id : Nat
  title : String
  descr : String
  price : ℚ
  discountPercentage : ℚ
  thumbnail : String
  images : List String
  deriving DecidableEq

/-! ### JavaScript `Map` (insertion-ordered association list)

`loadProducts` deduplicates via `new Map(allProducts.map(item => [item.id,
item]))` followed by `.values()`.  A JavaScript `Map` iterates its entries in
key-insertion order; `set` on an existing key updates the value in place,
keeping the key at its original position.  The same semantics governs the
plain-object `state.categories[category] = …` writes in productSlice.js. -/

/-- One step of JavaScript `Map.prototype.set` (equally: assignment to an
object property): update in place when the key is present, else append. -/
def mapSet {κ ν : Type} [DecidableEq κ] : List (κ × ν) → κ → ν → List (κ × ν)
  | [], k, v => [(k, v)]
  | e :: rest, k, v => if e.1 = k then (k, v) :: rest else e :: mapSet rest k v

/-- JavaScript `Map.prototype.get` (equally: object property read). -/
def mapGet {κ ν : Type} [DecidableEq κ] : List (κ × ν) → κ → Option ν
  | [], _ => none
  | e :: rest, k => if e.1 = k then some e.2 else mapGet rest k

/-- `new Map(entries)`: the entries are inserted in order into an empty map. -/
def mapOfEntries {κ ν : Type} [DecidableEq κ] (entries : List (κ × ν)) :
    List (κ × ν) :=
  entries.foldl (fun m e => mapSet m e.1 e.2) []

/-- The keys of the map, in iteration order. -/
def mapKeys {κ ν : Type} (m : List (κ × ν)) : List κ := m.map Prod.fst

/-- `Array.from(new Map(allProducts.map(item => [item.id, item])).values())`,
the deduplication step of `loadProducts` (CategoryProductList.js line 68). -/
def dedupeById (allProducts : List Product) : List Product :=
  (mapOfEntries (allProducts.map (fun item => (item.id, item)))).map Prod.snd

/-! ### Remote data gateway (src/services/api.js) -/

/-- A failure of the underlying axios request: transport error, the 10s
timeout, or a non-2xx HTTP response.  The constructors carry the raw detail
that the gateway logs but must not surface. -/
inductive HttpFailure where
  | transportError (detail : String)
  | timeout
  | badStatus (code : Nat) (body : String)
  deriving DecidableEq

/-- The fixed user-facing message `getProductsByCategory` throws on any
failure. -/
def productsErrorMessage : String :=
  "Não foi possível carregar os produtos. Tente novamente mais tarde."

/-- `getProductsByCategory` (api.js lines 25–38), applied to the outcome of
`api.get`: on success it returns `response.data.products`; on any failure it
throws a fresh `Error` with the fixed generic message (the caught cause is
only logged). -/
def getProductsByCategory (response : Except HttpFailure (List Product)) :
    Except String (List Product) :=
  match response with
  | .ok products => .ok products
  | .error _ => .error productsErrorMessage

/-- The user profile object resolved by `mockLogin` and stored by the auth
slice. -/
structure UserProfile where
  username : String
  name : String
  deriving DecidableEq

/-- The resolution value of a successful `mockLogin`. -/
structure LoginResponse where
  success : Bool
  user : UserProfile
  deriving DecidableEq

/-- `mockLogin` (api.js lines 71–85): after a simulated delay it resolves
`{ success: true, user: { username: 'user', name: 'Usuário Teste' } }` exactly
when the credentials are the hardcoded pair, and rejects otherwise.  The delay
is irrelevant to the resolved value and is not modelled. -/
def mockLogin (username password : String) : Except String LoginResponse :=
  if username = "user" ∧ password = "password" then
    .ok ⟨true, ⟨"user", "Usuário Teste"⟩⟩
  else
    .error "Usuário ou senha inválidos."

/-! ### Auth slice (src/store/authSlice.js) -/

/-- The `auth` slice state: `{ isLoggedIn: false, user: null }` initially. -/
structure AuthState where
  isLoggedIn : Bool
  user : Option UserProfile
  deriving DecidableEq

/-- Reducer `loginSuccess`: sets `isLoggedIn` to true and stores
`action.payload.user`. -/
def loginSuccess (state : AuthState) (payloadUser : UserProfile) : AuthState :=
  { state with isLoggedIn := true, user := some payloadUser }

/-- Reducer `logout` (authSlice.js lines 41–44): sets `isLoggedIn` to false
and clears `user`. -/
def logout (state : AuthState) : AuthState :=
  { state with isLoggedIn := false, user := none }

/-! ### Catalog aggregator (src/components/CategoryProductList.js)

The component's four `useState` hooks become one record; `loadProducts`
becomes a function from the prior state to the state after the async callback
has run to completion (every setter applied).  The per-category fetch is an
oracle `fetch : String → Except String (List Product)`, the composition of
`getProductsByCategory` with the network outcome for that slug. -/

/-- The component state of `CategoryProductList`:
`products`, `isLoading`, `error`, `refreshing`. -/
structure ComponentState where
  products : List Product
  isLoading : Bool
  error : Option String
  refreshing : Bool
  deriving DecidableEq

/-- The `for (const category of categories)` loop of `loadProducts` (lines
57–64): sequentially fetch each slug, accumulating
`allProducts = [...allProducts, ...categoryProducts]`; the first thrown error
aborts the loop and propagates. -/
def loadLoop (fetch : String → Except String (List Product)) :
    List String → List Product → Except String (List Product)
  | [], acc => .ok acc
  | c :: rest, acc =>
    match fetch c with
    | .error e => .error e
    | .ok ps => loadLoop fetch rest (acc ++ ps)

/-- `err.message || 'Falha ao carregar os produtos.'` (line 71): JavaScript
`||` replaces a falsy (here: empty) message by the fallback. -/
def errMessage (m : String) : String :=
  if m = "" then "Falha ao carregar os produtos." else m

/-- `loadProducts` (lines 53–76) as a state transition.  On success the state
holds the deduplicated merge with `error` still `null` (cleared at entry,
never reset); on a thrown error `products` is left untouched and `error` is
set.  `finally` clears `isLoading` and `refreshing` on both paths. -/
def loadProducts (fetch : String → Except String (List Product))
    (categories : List String) (s : ComponentState) : ComponentState :=
  match loadLoop fetch categories [] with
  | .ok allProducts =>
    { s with products := dedupeById allProducts, error := none,
             isLoading := false, refreshing := false }
  | .error e =>
    { s with error := some (errMessage e),
             isLoading := false, refreshing := false }

/-- The four mutually exclusive renderings of `CategoryProductList`. -/
inductive View where
  | loading
  | errorView (message : String)
  | emptyView
  | list (products : List Product)
  deriving DecidableEq

/-- JavaScript truthiness of the `error` state (`null` and `''` are falsy). -/
def optionTruthy (o : Option String) : Bool :=
  match o with
  | none => false
  | some s => !(s == "")

/-- The conditional rendering of `CategoryProductList` (lines 118–149): the
loading spinner when `isLoading && !refreshing`, else the error view when
`error` is truthy, else the empty view when `products.length === 0 &&
!isLoading`, else the product list. -/
def render (s : ComponentState) : View :=
  if s.isLoading && !s.refreshing then View.loading
  else if optionTruthy s.error then View.errorView (s.error.getD "")
  else if s.products.length == 0 && !s.isLoading then View.emptyView
  else View.list s.products

/-! ### Product slice (src/store/productSlice.js) -/

/-- Request status tags: `'idle' | 'loading' | 'succeeded' | 'failed'`. -/
inductive RequestStatus where
  | idle
  | loading
  | succeeded
  | failed
  deriving DecidableEq

/-- Per-category slice entry: `{ items, status, error }`. -/
structure CategoryState where
  items : List Product
  status : RequestStatus
  error : Option String
  deriving DecidableEq

/-- The `products` slice state: the `categories` object (an insertion-ordered
string-keyed map), plus `currentProduct`, `status` and `error` for the detail
view. -/
structure ProductsState where
  categories : List (String × CategoryState)
  currentProduct : Option Product
  status : RequestStatus
  error : Option String
  deriving DecidableEq

/-- `fetchProductsByCategory.pending` (productSlice.js lines 89–99): a missing
category is initialised `{ items: [], status: 'loading', error: null }`; an
existing one only has its `status` set to `'loading'`. -/
def fetchByCategoryPending (state : ProductsState) (category : String) :
    ProductsState :=
  match mapGet state.categories category with
  | none =>
    { state with
        categories := mapSet state.categories category ⟨[], .loading, none⟩ }
  | some cs =>
    { state with
        categories :=
          (mapSet state.categories category { cs with status := .loading }) }

/-- `fetchProductsByCategory.fulfilled` (lines 101–106): the category entry is
replaced wholesale by `{ items: products, status: 'succeeded', error: null }`. -/
def fetchByCategoryFulfilled (state : ProductsState) (category : String)
    (products : List Product) : ProductsState :=
  { state with
      categories := mapSet state.categories category ⟨products, .succeeded, none⟩ }

/-- `fetchProductsByCategory.rejected` (lines 108–118): a missing category is
initialised `{ items: [], status: 'failed', error: payload }`; an existing one
has its `status` and `error` updated, keeping `items`. -/
def fetchByCategoryRejected (state : ProductsState) (category : String)
    (payload : String) : ProductsState :=
  match mapGet state.categories category with
  | none =>
    { state with
        categories := mapSet state.categories category ⟨[], .failed, some payload⟩ }
  | some cs =>
    { state with
        categories :=
          (mapSet state.categories category
            { cs with status := .failed, error := some payload }) }

/-- `fetchProductDetails.pending` (lines 121–125). -/
def fetchDetailsPending (state : ProductsState) : ProductsState :=
  { state with status := .loading, error := none }

/-- `fetchProductDetails.fulfilled` (lines 127–131). -/
def fetchDetailsFulfilled (state : ProductsState) (payload : Product) :
    ProductsState :=
  { state with status := .succeeded, currentProduct := some payload }

/-- `fetchProductDetails.rejected` (lines 133–137). -/
def fetchDetailsRejected (state : ProductsState) (payload : String) :
    ProductsState :=
  { state with status := .failed, error := some payload }

/-! ### Specification-side predicates (used only to state properties) -/

/-- The sublist of first occurrences: each key at the position of its first
appearance. -/
def firstSeen {κ : Type} [DecidableEq κ] (ks : List κ) : List κ :=
  ks.foldl (fun acc k => if k ∈ acc then acc else acc ++ [k]) []

/-- The value paired with the LAST occurrence of key `k` in `entries`. -/
def lastVal {κ ν : Type} [DecidableEq κ] : List (κ × ν) → κ → Option ν
  | [], _ => none
  | e :: rest, k =>
    match lastVal rest k with
    | some v => some v
    | none => if e.1 = k then some e.2 else none

/-- The last product with identifier `i` in the list, if any. -/
def lastWithId (l : List Product) (i : Nat) : Option Product :=
  lastVal (l.map (fun p => (p.id, p))) i

/-- The initial component state: `useState([])`, `useState(true)`,
`useState(null)`, `useState(false)` (CategoryProductList.js lines 38–44). -/
def initialComponentState : ComponentState :=
  { products := [], isLoading := true, error := none, refreshing := false }

/-- A sample product with the given identifier and title, for concrete
instances. -/
def sampleProduct (i : Nat) (t : String) : Product :=
  { id := i, title := t, descr := "", price := 0, discountPercentage := 0,
    thumbnail := "", images := [] }

/-! ### Map lemmas -/

theorem mapKeys_cons {κ ν : Type} (e : κ × ν) (rest : List (κ × ν)) :
    mapKeys (e :: rest) = e.1 :: mapKeys rest := rfl

theorem mapGet_set {κ ν : Type} [DecidableEq κ] (m : List (κ × ν)) (k k' : κ)
    (v : ν) :
    mapGet (mapSet m k v) k' = if k = k' then some v else mapGet m k' := by
  induction m with
  | nil =>
    show mapGet [(k, v)] k' = _
    by_cases hk : k = k' <;> simp [mapGet, hk]
  | cons e rest ih =>
    by_cases he : e.1 = k
    · have h1 : mapSet (e :: rest) k v = (k, v) :: rest := by
        simp only [mapSet]; rw [if_pos he]
      rw [h1]
      by_cases hk : k = k'
      · simp [mapGet, hk]
      · have he' : e.1 ≠ k' := fun h => hk (he ▸ h)
        simp [mapGet, hk, he']
    · have h1 : mapSet (e :: rest) k v = e :: mapSet rest k v := by
        simp only [mapSet]; rw [if_neg he]
      rw [h1]
      by_cases hk' : e.1 = k'
      · have hkk : ¬ k = k' := fun h => he (by rw [h]; exact hk')
        simp [mapGet, hk', hkk]
      · simp [mapGet, hk', ih]

theorem mapKeys_set {κ ν : Type} [DecidableEq κ] (m : List (κ × ν)) (k : κ)
    (v : ν) :
    mapKeys (mapSet m k v) =
      if k ∈ mapKeys m then mapKeys m else mapKeys m ++ [k] := by
  induction m with
  | nil => simp [mapSet, mapKeys]
  | cons e rest ih =>
    by_cases he : e.1 = k
    · have h1 : mapSet (e :: rest) k v = (k, v) :: rest := by
        simp only [mapSet]; rw [if_pos he]
      have hmem : k ∈ mapKeys (e :: rest) := by
        rw [mapKeys_cons]; exact he ▸ List.mem_cons_self _ _
      rw [h1, if_pos hmem, mapKeys_cons, mapKeys_cons, he]
    · have h1 : mapSet (e :: rest) k v = e :: mapSet rest k v := by
        simp only [mapSet]; rw [if_neg he]
      rw [h1, mapKeys_cons, mapKeys_cons, ih]
      by_cases hk : k ∈ mapKeys rest
      · rw [if_pos hk, if_pos (List.mem_cons_of_mem _ hk)]
      · have hnot : k ∉ e.1 :: mapKeys rest := by
          intro hmem
          rcases List.mem_cons.mp hmem with h | h
          · exact he h.symm
          · exact hk h
        rw [if_neg hk, if_neg hnot]
        simp

theorem mapKeys_set_nodup {κ ν : Type} [DecidableEq κ] (m : List (κ × ν))
    (k : κ) (v : ν) (h : (mapKeys m).Nodup) :
    (mapKeys (mapSet m k v)).Nodup := by
  rw [mapKeys_set]
  by_cases hk : k ∈ mapKeys m
  · simpa [hk] using h
  · simp [hk, List.nodup_append, h]

theorem mapSet_forall {κ ν : Type} [DecidableEq κ] (P : κ × ν → Prop)
    (m : List (κ × ν)) (k : κ) (v : ν) :
    (∀ p ∈ m, P p) → P (k, v) → ∀ p ∈ mapSet m k v, P p := by
  induction m with
  | nil =>
    intro _ hkv p hp
    unfold mapSet at hp
    simp at hp
    subst hp
    exact hkv
  | cons e rest ih =>
    intro hm hkv p hp
    unfold mapSet at hp
    by_cases he : e.1 = k
    · rw [if_pos he] at hp
      rcases List.mem_cons.mp hp with rfl | h
      · exact hkv
      · exact hm p (List.mem_cons_of_mem _ h)
    · rw [if_neg he] at hp
      rcases List.mem_cons.mp hp with rfl | h
      · exact hm p (List.mem_cons_self _ _)
      · exact ih (fun q hq => hm q (List.mem_cons_of_mem _ hq)) hkv p h

theorem mem_of_mapGet_eq_some {κ ν : Type} [DecidableEq κ]
    (m : List (κ × ν)) (k : κ) (v : ν) (h : mapGet m k = some v) :
    (k, v) ∈ m := by
  induction m with
  | nil => simp [mapGet] at h
  | cons e rest ih =>
    unfold mapGet at h
    by_cases he : e.1 = k
    · rw [if_pos he] at h
      have he2 : e.2 = v := by simpa using h
      have : e = (k, v) := by
        obtain ⟨e1, e2⟩ := e
        simp only at he he2
        rw [he, he2]
      rw [← this]
      exact List.mem_cons_self _ _
    · rw [if_neg he] at h
      exact List.mem_cons_of_mem _ (ih h)

theorem mapGet_eq_some_of_mem_nodup {κ ν : Type} [DecidableEq κ]
    (m : List (κ × ν)) (k : κ) (v : ν) :
    (mapKeys m).Nodup → (k, v) ∈ m → mapGet m k = some v := by
  induction m with
  | nil => intro _ hmem; simp at hmem
  | cons e rest ih =>
    intro hnd hmem
    rw [mapKeys_cons, List.nodup_cons] at hnd
    rcases List.mem_cons.mp hmem with rfl | h
    · unfold mapGet
      simp
    · have hk : k ∈ mapKeys rest := by
        simpa [mapKeys] using List.mem_map_of_mem Prod.fst h
      have he : e.1 ≠ k := fun hek => hnd.1 (hek ▸ hk)
      unfold mapGet
      rw [if_neg he]
      exact ih hnd.2 h

theorem mapGet_foldl_set {κ ν : Type} [DecidableEq κ] (entries : List (κ × ν)) :
    ∀ (m : List (κ × ν)) (k : κ),
      mapGet (entries.foldl (fun acc e => mapSet acc e.1 e.2) m) k =
        match lastVal entries k with
        | some v => some v
        | none => mapGet m k := by
  induction entries with
  | nil => intro m k; rfl
  | cons e rest ih =>
    intro m k
    rw [List.foldl_cons, ih (mapSet m e.1 e.2) k]
    show _ = (match lastVal (e :: rest) k with
      | some v => some v
      | none => mapGet m k)
    simp only [lastVal]
    cases hl : lastVal rest k with
    | some v => rfl
    | none =>
      simp only
      rw [mapGet_set]
      by_cases he : e.1 = k
      · rw [if_pos he, if_pos he]
      · rw [if_neg he, if_neg he]

theorem mapGet_ofEntries {κ ν : Type} [DecidableEq κ] (entries : List (κ × ν))
    (k : κ) : mapGet (mapOfEntries entries) k = lastVal entries k := by
  rw [mapOfEntries, mapGet_foldl_set entries [] k]
  cases hl : lastVal entries k with
  | some v => rfl
  | none => rfl

theorem mapKeys_foldl_set {κ ν : Type} [DecidableEq κ] (entries : List (κ × ν)) :
    ∀ m : List (κ × ν),
      mapKeys (entries.foldl (fun acc e => mapSet acc e.1 e.2) m) =
        entries.foldl (fun acc e => if e.1 ∈ acc then acc else acc ++ [e.1])
          (mapKeys m) := by
  induction entries with
  | nil => intro m; rfl
  | cons e rest ih =>
    intro m
    rw [List.foldl_cons, List.foldl_cons, ih (mapSet m e.1 e.2), mapKeys_set]

theorem mapKeys_ofEntries_nodup {κ ν : Type} [DecidableEq κ]
    (entries : List (κ × ν)) : (mapKeys (mapOfEntries entries)).Nodup := by
  rw [mapOfEntries]
  have h : ∀ m : List (κ × ν), (mapKeys m).Nodup →
      (mapKeys (entries.foldl (fun acc e => mapSet acc e.1 e.2) m)).Nodup := by
    induction entries with
    | nil => intro m hm; exact hm
    | cons e rest ih =>
      intro m hm
      rw [List.foldl_cons]
      exact ih (mapSet m e.1 e.2) (mapKeys_set_nodup m e.1 e.2 hm)
  exact h [] (by simp [mapKeys])

theorem mapFoldl_forall {κ ν : Type} [DecidableEq κ] (P : κ × ν → Prop) :
    ∀ (entries m : List (κ × ν)), (∀ p ∈ m, P p) → (∀ e ∈ entries, P e) →
      ∀ p ∈ entries.foldl (fun acc e => mapSet acc e.1 e.2) m, P p := by
  intro entries
  induction entries with
  | nil => intro m hm _ p hp; exact hm p hp
  | cons e rest ih =>
    intro m hm he p hp
    rw [List.foldl_cons] at hp
    exact ih (mapSet m e.1 e.2)
      (mapSet_forall P m e.1 e.2 hm
        (by simpa using he e (List.mem_cons_self _ _)))
      (fun q hq => he q (List.mem_cons_of_mem _ hq)) p hp

theorem mapOfEntries_forall {κ ν : Type} [DecidableEq κ] (P : κ × ν → Prop)
    (entries : List (κ × ν)) (h : ∀ e ∈ entries, P e) :
    ∀ p ∈ mapOfEntries entries, P p := by
  rw [mapOfEntries]
  exact mapFoldl_forall P entries [] (by simp) h

/-! ### Deduplication lemmas -/

theorem dedupeEntries_inv (l : List Product) :
    ∀ p ∈ mapOfEntries (l.map (fun item => (item.id, item))), p.2.id = p.1 := by
  refine mapOfEntries_forall
    (fun p : Nat × Product => p.2.id = p.1) _ ?_
  intro e he
  rcases List.mem_map.mp he with ⟨item, _, rfl⟩
  rfl

theorem dedupeById_map_id (l : List Product) :
    (dedupeById l).map Product.id =
      mapKeys (mapOfEntries (l.map (fun item => (item.id, item)))) := by
  rw [dedupeById, List.map_map, mapKeys]
  exact List.map_congr_left (fun p hp => dedupeEntries_inv l p hp)

theorem dedupeById_ids_nodup (l : List Product) :
    ((dedupeById l).map Product.id).Nodup := by
  rw [dedupeById_map_id]
  exact mapKeys_ofEntries_nodup _

theorem dedupeById_first_seen (l : List Product) :
    (dedupeById l).map Product.id = firstSeen (l.map Product.id) := by
  rw [dedupeById_map_id, mapOfEntries, mapKeys_foldl_set, firstSeen,
    List.foldl_map, List.foldl_map]
  rfl

theorem dedupeById_lastWithId (l : List Product) :
    ∀ p ∈ dedupeById l, lastWithId l p.id = some p := by
  intro p hp
  rcases List.mem_map.mp hp with ⟨e, hem, he2⟩
  have hinv := dedupeEntries_inv l e hem
  have he : e = (p.id, p) := by
    obtain ⟨e1, e2⟩ := e
    simp only at he2 hinv
    rw [he2] at hinv ⊢
    rw [hinv]
  rw [he] at hem
  have hget := mapGet_eq_some_of_mem_nodup _ p.id p
    (mapKeys_ofEntries_nodup (l.map (fun item => (item.id, item)))) hem
  rw [mapGet_ofEntries] at hget
  exact hget

/-! ### Aggregation loop lemmas -/

theorem loadLoop_ok_of_forall (fetch : String → Except String (List Product)) :
    ∀ (cats : List String) (acc : List Product),
      (∀ c ∈ cats, ∃ ps, fetch c = .ok ps) →
      ∃ l, loadLoop fetch cats acc = .ok l := by
  intro cats
  induction cats with
  | nil => intro acc _; exact ⟨acc, rfl⟩
  | cons c rest ih =>
    intro acc h
    obtain ⟨ps, hps⟩ := h c (List.mem_cons_self _ _)
    have hstep : loadLoop fetch (c :: rest) acc = loadLoop fetch rest (acc ++ ps) := by
      simp only [loadLoop, hps]
    rw [hstep]
    exact ih (acc ++ ps) (fun d hd => h d (List.mem_cons_of_mem _ hd))

theorem loadLoop_error_of_exists (fetch : String → Except String (List Product)) :
    ∀ (cats : List String) (acc : List Product),
      (∃ c ∈ cats, ∃ e, fetch c = .error e) →
      ∃ e, loadLoop fetch cats acc = .error e := by
  intro cats
  induction cats with
  | nil => intro acc h; simp at h
  | cons c rest ih =>
    intro acc h
    cases hc : fetch c with
    | error e =>
      refine ⟨e, ?_⟩
      simp only [loadLoop, hc]
    | ok ps =>
      have hstep : loadLoop fetch (c :: rest) acc = loadLoop fetch rest (acc ++ ps) := by
        simp only [loadLoop, hc]
      rw [hstep]
      apply ih
      obtain ⟨d, hd, e, he⟩ := h
      rcases List.mem_cons.mp hd with rfl | hd'
      · rw [hc] at he; exact absurd he (by simp)
      · exact ⟨d, hd', e, he⟩

theorem errMessage_ne_empty (m : String) : errMessage m ≠ "" := by
  rw [errMessage]
  by_cases h : m = ""
  · rw [if_pos h]; decide
  · rw [if_neg h]; exact h

/-! ### Claim theorems -/

/-- C4: `mockLogin` succeeds exactly for the credential pair
`username = "user"`, `password = "password"`, resolving
`{ success: true, user: { username: 'user', name: 'Usuário Teste' } }`;
every other pair is rejected with the invalid-credentials error. -/
theorem mockLogin_exact_credentials :
    mockLogin "user" "password" =
      Except.ok ⟨true, ⟨"user", "Usuário Teste"⟩⟩ ∧
    ∀ u p : String, ¬(u = "user" ∧ p = "password") →
      mockLogin u p = Except.error "Usuário ou senha inválidos." := by
  constructor
  · rw [mockLogin, if_pos ⟨rfl, rfl⟩]
  · intro u p h
    rw [mockLogin, if_neg h]

theorem mockLogin_exact_credentials_witness :
    mockLogin "user" "wrong" = Except.error "Usuário ou senha inválidos." :=
  mockLogin_exact_credentials.2 "user" "wrong" (by decide)

/-- C5: from every prior session state, the `logout` reducer yields the state
with `isLoggedIn = false` and `user = null`. -/
theorem logout_resets_session (s : AuthState) :
    logout s = { isLoggedIn := false, user := none } := rfl

/-- C6: whatever the underlying cause of the failed category request
(transport error, timeout, non-2xx response), `getProductsByCategory` fails
with the same fixed generic message; the raw cause never reaches the caller. -/
theorem getProductsByCategory_generic_error (cause : HttpFailure) :
    getProductsByCategory (Except.error cause) =
      Except.error productsErrorMessage := rfl

/-- C8: on `fetchProductsByCategory.fulfilled` the per-category state is
replaced wholesale by `{ items: products, status: 'succeeded', error: null }`,
while every other category and the detail-view fields `currentProduct`,
`status`, `error` are left unchanged. -/
theorem fulfilled_replaces_category_wholesale (state : ProductsState)
    (category : String) (products : List Product) :
    mapGet (fetchByCategoryFulfilled state category products).categories
        category = some ⟨products, .succeeded, none⟩ ∧
    (∀ k, k ≠ category →
      mapGet (fetchByCategoryFulfilled state category products).categories k =
        mapGet state.categories k) ∧
    (fetchByCategoryFulfilled state category products).currentProduct =
      state.currentProduct ∧
    (fetchByCategoryFulfilled state category products).status = state.status ∧
    (fetchByCategoryFulfilled state category products).error = state.error := by
  refine ⟨?_, ?_, rfl, rfl, rfl⟩
  · show mapGet (mapSet state.categories category _) category = _
    rw [mapGet_set, if_pos rfl]
  · intro k hk
    show mapGet (mapSet state.categories category _) k = _
    rw [mapGet_set, if_neg (fun h => hk h.symm)]

theorem fulfilled_replaces_category_wholesale_witness :
    mapGet (fetchByCategoryFulfilled
        ⟨[("beauty", ⟨[sampleProduct 1 "Old"], .succeeded, none⟩)],
          none, .idle, none⟩
        "mens-shirts" [sampleProduct 2 "New"]).categories "beauty" =
      some ⟨[sampleProduct 1 "Old"], .succeeded, none⟩ := by
  have h := (fulfilled_replaces_category_wholesale
    ⟨[("beauty", ⟨[sampleProduct 1 "Old"], .succeeded, none⟩)],
      none, .idle, none⟩
    "mens-shirts" [sampleProduct 2 "New"]).2.1 "beauty" (by decide)
  rw [h]
  rfl

/-- C10: while a refetch of an already-populated category is pending, its
previously fetched `items` (and `error`) are kept and only `status` becomes
`'loading'`; likewise a rejected refetch keeps `items` and only updates
`status` and `error`. -/
theorem pending_rejected_keep_existing_items (state : ProductsState)
    (category : String) (cs : CategoryState) (payload : String)
    (h : mapGet state.categories category = some cs) :
    mapGet (fetchByCategoryPending state category).categories category =
      some { cs with status := .loading } ∧
    mapGet (fetchByCategoryRejected state category payload).categories
        category = some { cs with status := .failed, error := some payload } := by
  constructor
  · simp only [fetchByCategoryPending, h]
    rw [mapGet_set, if_pos rfl]
  · simp only [fetchByCategoryRejected, h]
    rw [mapGet_set, if_pos rfl]

theorem pending_rejected_keep_existing_items_witness :
    mapGet (fetchByCategoryPending
        ⟨[("beauty", ⟨[sampleProduct 1 "Old"], .succeeded, none⟩)],
          none, .idle, none⟩
        "beauty").categories "beauty" =
      some ⟨[sampleProduct 1 "Old"], .loading, none⟩ :=
  (pending_rejected_keep_existing_items
    ⟨[("beauty", ⟨[sampleProduct 1 "Old"], .succeeded, none⟩)],
      none, .idle, none⟩
    "beauty" ⟨[sampleProduct 1 "Old"], .succeeded, none⟩ "boom" rfl).1

/-- C1: when every per-category fetch succeeds, `loadProducts` stores a merged
list whose product identifiers are pairwise distinct, for arbitrary (possibly
overlapping) per-category response lists. -/
theorem loadProducts_ids_nodup (fetch : String → Except String (List Product))
    (categories : List String) (s : ComponentState)
    (h : ∀ c ∈ categories, ∃ ps, fetch c = Except.ok ps) :
    (((loadProducts fetch categories s).products).map Product.id).Nodup := by
  obtain ⟨l, hl⟩ := loadLoop_ok_of_forall fetch categories [] h
  have hprod : (loadProducts fetch categories s).products = dedupeById l := by
    simp only [loadProducts, hl]
  rw [hprod]
  exact dedupeById_ids_nodup l

theorem loadProducts_ids_nodup_witness :
    (((loadProducts
        (fun _ => Except.ok [sampleProduct 7 "A", sampleProduct 8 "B"])
        ["mens-shirts", "mens-shoes"] initialComponentState).products).map
      Product.id).Nodup :=
  loadProducts_ids_nodup _ _ _
    (fun _ _ => ⟨[sampleProduct 7 "A", sampleProduct 8 "B"], rfl⟩)

/-- C2: duplicates across the concatenated per-category responses are
resolved last-seen-wins: with slugs `["a", "b"]` and the last occurrence of
identifier `i` in the concatenation being `p`, the merged list contains `p`
and no other product with identifier `i` (so with id 7 in both responses
under different titles, the title from `"b"` survives). -/
theorem loadProducts_last_seen_wins
    (fetch : String → Except String (List Product))
    (ra rb : List Product) (s : ComponentState) (i : Nat) (p : Product)
    (ha : fetch "a" = Except.ok ra) (hb : fetch "b" = Except.ok rb)
    (hlast : lastWithId (ra ++ rb) i = some p) :
    p ∈ (loadProducts fetch ["a", "b"] s).products ∧
    ∀ q ∈ (loadProducts fetch ["a", "b"] s).products, q.id = i → q = p := by
  have hloop : loadLoop fetch ["a", "b"] [] = Except.ok (ra ++ rb) := by
    simp only [loadLoop, ha, hb, List.nil_append]
  have hprod : (loadProducts fetch ["a", "b"] s).products =
      dedupeById (ra ++ rb) := by
    simp only [loadProducts, hloop]
  rw [hprod]
  constructor
  · have hget : mapGet
        (mapOfEntries ((ra ++ rb).map (fun item => (item.id, item)))) i =
          some p := by
      rw [mapGet_ofEntries]
      exact hlast
    have hmem := mem_of_mapGet_eq_some _ _ _ hget
    exact List.mem_map.mpr ⟨(i, p), hmem, rfl⟩
  · intro q hq hqi
    have hlq := dedupeById_lastWithId (ra ++ rb) q hq
    rw [hqi, hlast] at hlq
    exact (Option.some.inj hlq).symm

theorem loadProducts_last_seen_wins_witness :
    sampleProduct 7 "Title B" ∈
      (loadProducts
        (fun c => if c = "a" then Except.ok [sampleProduct 7 "Title A"]
          else Except.ok [sampleProduct 7 "Title B"])
        ["a", "b"] initialComponentState).products :=
  (loadProducts_last_seen_wins _ [sampleProduct 7 "Title A"]
    [sampleProduct 7 "Title B"] initialComponentState 7 (sampleProduct 7 "Title B")
    (by rfl) (by rfl) (by rfl)).1

/-- C3: if the fetch of any requested slug fails, `loadProducts` ends with a
non-null `error`, leaves the `products` state untouched (no partial merge is
stored), and the component renders the error view, not a list. -/
theorem loadProducts_failure_discards_merge
    (fetch : String → Except String (List Product))
    (categories : List String) (s : ComponentState)
    (h : ∃ c ∈ categories, ∃ e, fetch c = Except.error e) :
    (∃ msg, (loadProducts fetch categories s).error = some msg) ∧
    (loadProducts fetch categories s).products = s.products ∧
    ∃ msg, render (loadProducts fetch categories s) = View.errorView msg := by
  obtain ⟨e, he⟩ := loadLoop_error_of_exists fetch categories [] h
  have hs : loadProducts fetch categories s =
      { s with error := some (errMessage e),
               isLoading := false, refreshing := false } := by
    simp only [loadProducts, he]
  rw [hs]
  refine ⟨⟨errMessage e, rfl⟩, rfl, ⟨errMessage e, ?_⟩⟩
  have hne : (errMessage e == "") = false := by
    simp [errMessage_ne_empty e]
  simp [render, optionTruthy, hne]

theorem loadProducts_failure_discards_merge_witness :
    (loadProducts
      (fun c => if c = "mens-shirts" then Except.ok [sampleProduct 7 "A"]
        else Except.error productsErrorMessage)
      ["mens-shirts", "mens-shoes"] initialComponentState).products =
      initialComponentState.products :=
  (loadProducts_failure_discards_merge _ ["mens-shirts", "mens-shoes"]
    initialComponentState
    ⟨"mens-shoes", by decide, productsErrorMessage, by rfl⟩).2.1

/-- C7: after `loadProducts` completes, the empty view is rendered if and only
if loading is finished, `error` is null, and the stored product list has
length zero — a condition distinct from the error view. -/
theorem render_empty_iff (fetch : String → Except String (List Product))
    (categories : List String) (s : ComponentState) :
    render (loadProducts fetch categories s) = View.emptyView ↔
      ((loadProducts fetch categories s).isLoading = false ∧
       (loadProducts fetch categories s).error = none ∧
       (loadProducts fetch categories s).products = []) := by
  cases hl : loadLoop fetch categories [] with
  | ok l =>
    have hs : loadProducts fetch categories s =
        { s with products := dedupeById l, error := none,
                 isLoading := false, refreshing := false } := by
      simp only [loadProducts, hl]
    rw [hs]
    by_cases hd : dedupeById l = []
    · simp [render, optionTruthy, hd]
    · simp [render, optionTruthy, hd, List.length_eq_zero]
  | error e =>
    have hs : loadProducts fetch categories s =
        { s with error := some (errMessage e),
                 isLoading := false, refreshing := false } := by
      simp only [loadProducts, hl]
    rw [hs]
    have hne : (errMessage e == "") = false := by
      simp [errMessage_ne_empty e]
    simp [render, optionTruthy, hne]

/-- C9: in the deduplicated merge, surviving identifiers appear in the order
of their first occurrence in the concatenated responses, while each surviving
product is the last occurrence of its identifier. -/
theorem loadProducts_first_seen_order_last_seen_values
    (fetch : String → Except String (List Product))
    (categories : List String) (s : ComponentState) (l : List Product)
    (hl : loadLoop fetch categories [] = Except.ok l) :
    ((loadProducts fetch categories s).products.map Product.id =
      firstSeen (l.map Product.id)) ∧
    ∀ p ∈ (loadProducts fetch categories s).products,
      lastWithId l p.id = some p := by
  have hprod : (loadProducts fetch categories s).products = dedupeById l := by
    simp only [loadProducts, hl]
  rw [hprod]
  exact ⟨dedupeById_first_seen l, dedupeById_lastWithId l⟩

theorem loadProducts_first_seen_order_last_seen_values_witness :
    (loadProducts
      (fun _ => Except.ok [sampleProduct 7 "A", sampleProduct 8 "B"])
      ["a", "b"] initialComponentState).products.map Product.id =
    firstSeen ([sampleProduct 7 "A", sampleProduct 8 "B", sampleProduct 7 "A",
      sampleProduct 8 "B"].map Product.id) :=
  (loadProducts_first_seen_order_last_seen_values _ ["a", "b"]
    initialComponentState _ (by rfl)).1
